import Mathlib

/-!
Verification of the terrain-generation core (Rust crate `core`) against its
natural-language specification.

Modelling conventions (shallow embedding):
* `f32`/`f64` values are modelled as exact rationals `ℚ`.  All algorithms of
  the core are chains of `+ - * /`, `min`, `max`, comparisons and `floor`,
  which are exact here; the one transcendental operation (`powf` in
  `normalize2`) is modelled as an explicit curve parameter (see below).
* `u64` arithmetic (the xorshift RNG) is modelled on `ℕ` with explicit
  `% 2^64` where wrapping matters.
* Rust `Vec<Vec<f32>>` height maps become `List (List ℚ)`; indexing `m[y][x]`
  (always in bounds in the source) becomes `getCell` via `List.getD`.
* A Rust `panic!` / failed `assert!` is modelled as `Option.none`.
-/

/-- 2D height map, row-major, addressed `[row][col]` (src/core/src/utils.rs). -/
def Grid : Type := List (List ℚ)

/-- Read `m[y][x]`; the default `0` is never hit for in-bounds accesses. -/
def getCell (m : Grid) (y x : ℕ) : ℚ := ((m.getD y []).getD x 0)

/-- Number of rows, `map.len()` in the source. -/
def gridH (m : Grid) : ℕ := List.length m

/-- Number of columns, `map[0].len()` in the source. -/
def gridW (m : Grid) : ℕ := (m.getD 0 []).length

/-- `m[y][x] += a` (no-op out of bounds, like the source where it cannot happen). -/
def addAt (m : Grid) (y x : ℕ) (a : ℚ) : Grid :=
  m.set y ((m.getD y []).set x (getCell m y x + a))

/-- An all-zero `h×w` grid (`vec![vec![0.0f32; w]; h]`). -/
def zeroGrid (h w : ℕ) : Grid := List.replicate h (List.replicate w 0)

/-- `flatten2` from src/core/src/utils.rs: row-major flattening. -/
def flatten2 (m : Grid) : List ℚ := m.foldr (fun row acc => row ++ acc) []

section UtilsColor

/-- Rust `as u8` cast of a float: truncate toward zero, saturate to `[0,255]`. -/
def ratToU8 (q : ℚ) : ℕ := min 255 (Int.toNat (Int.floor q))

/-- `lerp_color` from src/core/src/utils.rs. -/
def lerp_color (a b : ℕ × ℕ × ℕ) (t : ℚ) : ℕ × ℕ × ℕ :=
  (ratToU8 ((a.1 : ℚ) + ((b.1 : ℚ) - (a.1 : ℚ)) * t),
   ratToU8 ((a.2.1 : ℚ) + ((b.2.1 : ℚ) - (a.2.1 : ℚ)) * t),
   ratToU8 ((a.2.2 : ℚ) + ((b.2.2 : ℚ) - (a.2.2 : ℚ)) * t))

/-- Threshold constants from src/core/src/utils.rs (decimal literals read as
exact rationals). -/
def WATER_THRESHOLD : ℚ := 3/10

def SAND_THRESHOLD : ℚ := 4/10

def GRASS_THRESHOLD : ℚ := 6/10

def ROCK_THRESHOLD : ℚ := 8/10

/-- `height_to_rgb` from src/core/src/utils.rs, translated band for band.
Note the rock band really divides `x - SAND_THRESHOLD` by
`ROCK_THRESHOLD - GRASS_THRESHOLD`, exactly as the source does. -/
def height_to_rgb (h : ℚ) : ℕ × ℕ × ℕ :=
  if h < WATER_THRESHOLD then
    lerp_color (0, 0, 128) (0, 128, 255) (h / WATER_THRESHOLD)
  else if h < SAND_THRESHOLD then
    lerp_color (194, 178, 128) (220, 200, 160)
      ((h - WATER_THRESHOLD) / (SAND_THRESHOLD - WATER_THRESHOLD))
  else if h < GRASS_THRESHOLD then
    lerp_color (34, 139, 34) (50, 205, 50)
      ((h - SAND_THRESHOLD) / (GRASS_THRESHOLD - SAND_THRESHOLD))
  else if h < ROCK_THRESHOLD then
    lerp_color (128, 128, 128) (192, 192, 192)
      ((h - SAND_THRESHOLD) / (ROCK_THRESHOLD - GRASS_THRESHOLD))
  else
    lerp_color (220, 220, 220) (255, 255, 255)
      ((h - ROCK_THRESHOLD) / (1 - ROCK_THRESHOLD))

/-- Modelled from the spec: the height-to-color mapping as the claim states
it — within each band the interpolation parameter is the position of the
value inside that band's own sub-range.  Only the rock band differs from
`height_to_rgb`. -/
def height_to_rgb_spec (h : ℚ) : ℕ × ℕ × ℕ :=
  if h < WATER_THRESHOLD then
    lerp_color (0, 0, 128) (0, 128, 255) (h / WATER_THRESHOLD)
  else if h < SAND_THRESHOLD then
    lerp_color (194, 178, 128) (220, 200, 160)
      ((h - WATER_THRESHOLD) / (SAND_THRESHOLD - WATER_THRESHOLD))
  else if h < GRASS_THRESHOLD then
    lerp_color (34, 139, 34) (50, 205, 50)
      ((h - SAND_THRESHOLD) / (GRASS_THRESHOLD - SAND_THRESHOLD))
  else if h < ROCK_THRESHOLD then
    lerp_color (128, 128, 128) (192, 192, 192)
      ((h - GRASS_THRESHOLD) / (ROCK_THRESHOLD - GRASS_THRESHOLD))
  else
    lerp_color (220, 220, 220) (255, 255, 255)
      ((h - ROCK_THRESHOLD) / (1 - ROCK_THRESHOLD))

/-- `to_terrain_image` from src/core/src/utils.rs: one RGB triple per height. -/
def to_terrain_image (flat : List ℚ) : List ℕ :=
  flat.foldr (fun h acc =>
    (height_to_rgb h).1 :: (height_to_rgb h).2.1 :: (height_to_rgb h).2.2 :: acc) []

end UtilsColor

section UtilsNormalize

/-- Largest finite `f32` value (`f32::MAX` = (2 − 2⁻²³)·2¹²⁷), exact. -/
def F32MAX : ℚ := 2 ^ 128 - 2 ^ 104

/-- `f32::MIN` = −`f32::MAX`. -/
def F32MIN : ℚ := -F32MAX

/-- The min-scan of `normalize2`: fold of `min` over all cells starting from
`f32::MAX`, mirroring the nested loops of the source. -/
def gridMin (m : Grid) : ℚ := m.foldl (fun acc row => row.foldl min acc) F32MAX

/-- The max-scan of `normalize2`, starting from `f32::MIN`. -/
def gridMax (m : Grid) : ℚ := m.foldl (fun acc row => row.foldl max acc) F32MIN

/-- `(max - min).max(0.001)` — the denominator actually used by `normalize2`. -/
def normRange (m : Grid) : ℚ := max (gridMax m - gridMin m) (1/1000)

/-- `normalize2` from src/core/src/utils.rs.  The final `val.powf(1.2)`
(`GAMMA_CORRECTION`) is transcendental, hence not a rational function; it is
modelled by an explicit contrast-curve parameter `gamma` standing for
`(·) ^ 1.2`, exactly the "contrast curve applied afterward" that the spec
brackets out. -/
def normalize2 (gamma : ℚ → ℚ) (m : Grid) : Grid :=
  m.map (fun row => row.map (fun v => gamma ((v - gridMin m) / normRange m)))

end UtilsNormalize

section FractalDef

/-- `Fractal2D` (src/core/src/fractal2.rs). -/
structure Fractal2D where
  size : ℕ
  seed : ℕ
  roughness : ℚ
  map : List (List ℚ)
deriving DecidableEq

/-- `n.is_power_of_two()` (Rust `u size`): exactly one set bit. -/
def is_power_of_two (n : ℕ) : Bool := (List.range (n + 1)).any (fun k => 2 ^ k == n)

/-- `Fractal2D::new`: the `assert!(size >= 3 && (size-1).is_power_of_two())`
is modelled as returning `none` (a panic aborts construction).  Note the
constructor touches no RNG state: the xorshift stream lives in `generate`. -/
def Fractal2D.new (size : ℕ) (seed : ℕ) (roughness : ℚ) : Option Fractal2D :=
  if 3 ≤ size ∧ is_power_of_two (size - 1) then
    some { size := size, seed := seed, roughness := roughness,
           map := zeroGrid size size }
  else none

/-- `Fractal2D::get2` (the `NoiseGenerator` impl in src/core/src/fractal2.rs):
bilinear lookup in the stored map.  `fx.floor() as usize` saturates negative
values to `0`, which `Int.toNat` matches. -/
def Fractal2D.get2 (f : Fractal2D) (x y : ℚ) : ℚ :=
  let fx := x * (f.size : ℚ)
  let fy := y * (f.size : ℚ)
  let xi := (Int.floor fx).toNat
  let yi := (Int.floor fy).toNat
  if f.size ≤ xi + 1 ∨ f.size ≤ yi + 1 then 0
  else
    let tx := fx - (xi : ℚ)
    let ty := fy - (yi : ℚ)
    let a := getCell f.map yi xi
    let b := getCell f.map yi (xi + 1)
    let c := getCell f.map (yi + 1) xi
    let d := getCell f.map (yi + 1) (xi + 1)
    let ab := a * (1 - tx) + b * tx
    let cd := c * (1 - tx) + d * tx
    ab * (1 - ty) + cd * ty

/-- Modelled from the spec's sampler contract: scale to grid coordinates,
floor to the enclosing cell, bilinearly interpolate the four surrounding
stored values (standard four-weight form); outside the valid interpolation
range return the neutral value `0`. -/
def fractalBilinearSpec (f : Fractal2D) (x y : ℚ) : ℚ :=
  let fx := x * (f.size : ℚ)
  let fy := y * (f.size : ℚ)
  let xi := (Int.floor fx).toNat
  let yi := (Int.floor fy).toNat
  if xi + 1 < f.size ∧ yi + 1 < f.size then
    let tx := fx - (xi : ℚ)
    let ty := fy - (yi : ℚ)
    getCell f.map yi xi * (1 - tx) * (1 - ty) +
    getCell f.map yi (xi + 1) * tx * (1 - ty) +
    getCell f.map (yi + 1) xi * (1 - tx) * ty +
    getCell f.map (yi + 1) (xi + 1) * tx * ty
  else 0

end FractalDef

/-- C7 helper: `is_power_of_two` decides `∃ k, n = 2^k`. -/
theorem is_power_of_two_iff (n : ℕ) : is_power_of_two n = true ↔ ∃ k, n = 2 ^ k := by
  unfold is_power_of_two
  simp only [List.any_eq_true, List.mem_range, beq_iff_eq]
  constructor
  · rintro ⟨k, _, hk⟩; exact ⟨k, hk.symm⟩
  · rintro ⟨k, hk⟩
    exact ⟨k, by have := Nat.lt_two_pow k; omega, hk.symm⟩

/-- **C7** — `Fractal2D::new` fails fast (panics, modelled as `none`) exactly
when the size precondition `size ≥ 3 ∧ size − 1 = 2^k` is violated; for every
valid size the construction succeeds, and by definition the constructor
consumes no randomness and builds only the zero map. -/
theorem C7_fractal_size_precondition (size seed : ℕ) (roughness : ℚ) :
    (Fractal2D.new size seed roughness).isSome ↔
      (3 ≤ size ∧ ∃ k, size - 1 = 2 ^ k) := by
  unfold Fractal2D.new
  by_cases h : 3 ≤ size ∧ is_power_of_two (size - 1)
  · simp [h, (is_power_of_two_iff (size - 1)).mp h.2, h.1]
  · rw [if_neg h]
    simp only [Option.isSome_none, Bool.false_eq_true, false_iff]
    intro hc
    exact h ⟨hc.1, (is_power_of_two_iff (size - 1)).mpr hc.2⟩

/-- Cells of an all-zero grid read back as `0` (in or out of bounds). -/
theorem getCell_zeroGrid (h w y x : ℕ) : getCell (zeroGrid h w) y x = 0 := by
  unfold getCell zeroGrid
  simp only [List.getD_eq_getElem?_getD, List.getElem?_replicate]
  by_cases hy : y < h <;> by_cases hx : x < w <;> simp [hy, hx]

/-- **C9** — after scaling to grid coordinates and flooring, `Fractal2D::get2`
returns exactly the bilinear interpolation of the four surrounding stored
grid values, and exactly `0` whenever the floored cell lies within one cell
of the far edge (the out-of-range guard), for every query point. -/
theorem C9_fractal_bilinear_sampling (f : Fractal2D) (x y : ℚ) :
    f.get2 x y = fractalBilinearSpec f x y := by
  simp only [Fractal2D.get2, fractalBilinearSpec]
  by_cases hcond : (Int.floor (x * (f.size : ℚ))).toNat + 1 < f.size ∧
      (Int.floor (y * (f.size : ℚ))).toNat + 1 < f.size
  · rw [if_neg (by omega), if_pos hcond]; ring
  · rw [if_pos (by omega), if_neg hcond]

/-- **C10** — on any successfully constructed `Fractal2D`, before `generate`
has run, `get2` returns exactly `0` at every query point: the constructor
zero-initializes the stored map, so the bilinear branch interpolates zeros
and the far-edge branch returns the literal `0`. -/
theorem C10_fresh_fractal_samples_zero (size seed : ℕ) (roughness : ℚ)
    (f : Fractal2D) (hf : Fractal2D.new size seed roughness = some f)
    (x y : ℚ) : f.get2 x y = 0 := by
  have hmap : f.map = zeroGrid size size := by
    unfold Fractal2D.new at hf
    by_cases h : 3 ≤ size ∧ is_power_of_two (size - 1)
    · rw [if_pos h] at hf
      cases hf
      rfl
    · rw [if_neg h] at hf
      cases hf
  simp only [Fractal2D.get2, hmap, getCell_zeroGrid]
  by_cases hcond : f.size ≤ (Int.floor (x * (f.size : ℚ))).toNat + 1 ∨
      f.size ≤ (Int.floor (y * (f.size : ℚ))).toNat + 1
  · rw [if_pos hcond]
  · rw [if_neg hcond]; ring

/-- Closed witness for C10 at a concrete construction and an in-range query. -/
theorem C10_fresh_fractal_samples_zero_witness :
    Fractal2D.new 5 7 1 = some ⟨5, 7, 1, zeroGrid 5 5⟩ ∧
      Fractal2D.get2 ⟨5, 7, 1, zeroGrid 5 5⟩ (1/10) (2/10) = 0 :=
  ⟨by rfl, C10_fresh_fractal_samples_zero 5 7 1 _ (by rfl) (1/10) (2/10)⟩

/-- **C5** — evaluation of the height-to-color code at `h = 0.7` (middle of
the rock band): `height_to_rgb` computes the interpolation parameter as
`(h − SAND_THRESHOLD) / (ROCK_THRESHOLD − GRASS_THRESHOLD) = 1.5`, yielding
RGB `(224,224,224)`, while the position of `0.7` within the rock band's own
sub-range is `0.5`, yielding `(160,160,160)` as the claim requires; the
one-triple-per-height layout of `to_terrain_image` is also evaluated. -/
theorem C5_rock_band_divergence_eval :
    to_terrain_image [7/10] = [224, 224, 224] ∧
      height_to_rgb (7/10) = (224, 224, 224) ∧
      height_to_rgb_spec (7/10) = (160, 160, 160) := by
  refine ⟨?_, ?_, ?_⟩ <;>
    norm_num [to_terrain_image, height_to_rgb, height_to_rgb_spec, lerp_color,
      ratToU8, WATER_THRESHOLD, SAND_THRESHOLD, GRASS_THRESHOLD,
      ROCK_THRESHOLD] <;> rfl

section FoldMinMax

/-- Folding over the row-major flattening equals the nested row-by-row fold
used by `normalize2`'s min/max scans. -/
theorem foldl_flatten2 (f : ℚ → ℚ → ℚ) (m : Grid) (a : ℚ) :
    (flatten2 m).foldl f a = m.foldl (fun acc row => row.foldl f acc) a := by
  induction m generalizing a with
  | nil => rfl
  | cons row rest ih =>
      show ((row ++ flatten2 rest).foldl f a) = _
      rw [List.foldl_append, ih]
      rfl

theorem foldl_min_le_init (l : List ℚ) (a : ℚ) : l.foldl min a ≤ a := by
  induction l generalizing a with
  | nil => exact le_refl a
  | cons b t ih => exact le_trans (ih (min a b)) (min_le_left a b)

theorem foldl_min_le_mem (l : List ℚ) (a x : ℚ) (hx : x ∈ l) : l.foldl min a ≤ x := by
  induction l generalizing a with
  | nil => cases hx
  | cons b t ih =>
      rcases List.mem_cons.mp hx with h | h
      · subst h
        exact le_trans (foldl_min_le_init t (min a x)) (min_le_right a x)
      · exact ih (min a b) h

theorem foldl_min_attained (l : List ℚ) (a : ℚ) :
    l.foldl min a = a ∨ l.foldl min a ∈ l := by
  induction l generalizing a with
  | nil => exact Or.inl rfl
  | cons b t ih =>
      rcases ih (min a b) with h | h
      · rcases min_choice a b with hab | hab
        · exact Or.inl (by rw [List.foldl_cons, h, hab])
        · exact Or.inr (by rw [List.foldl_cons, h, hab]; exact List.mem_cons_self b t)
      · exact Or.inr (List.mem_cons_of_mem b h)

theorem le_foldl_max_init (l : List ℚ) (a : ℚ) : a ≤ l.foldl max a := by
  induction l generalizing a with
  | nil => exact le_refl a
  | cons b t ih => exact le_trans (le_max_left a b) (ih (max a b))

theorem mem_le_foldl_max (l : List ℚ) (a x : ℚ) (hx : x ∈ l) : x ≤ l.foldl max a := by
  induction l generalizing a with
  | nil => cases hx
  | cons b t ih =>
      rcases List.mem_cons.mp hx with h | h
      · subst h
        exact le_trans (le_max_right a x) (le_foldl_max_init t (max a x))
      · exact ih (max a b) h

theorem foldl_max_attained (l : List ℚ) (a : ℚ) :
    l.foldl max a = a ∨ l.foldl max a ∈ l := by
  induction l generalizing a with
  | nil => exact Or.inl rfl
  | cons b t ih =>
      rcases ih (max a b) with h | h
      · rcases max_choice a b with hab | hab
        · exact Or.inl (by rw [List.foldl_cons, h, hab])
        · exact Or.inr (by rw [List.foldl_cons, h, hab]; exact List.mem_cons_self b t)
      · exact Or.inr (List.mem_cons_of_mem b h)

end FoldMinMax

/-- `flatten2` of a cell-wise mapped grid is the map of the flattening. -/
theorem flatten2_map (g : ℚ → ℚ) (m : Grid) :
    flatten2 (List.map (fun row => row.map g) m) = (flatten2 m).map g := by
  induction m with
  | nil => rfl
  | cons row rest ih =>
      show (row.map g) ++ flatten2 (List.map (fun row => row.map g) rest) = _
      rw [ih]
      show _ = (row ++ flatten2 rest).map g
      rw [List.map_append]

theorem gridMin_eq (m : Grid) : gridMin m = (flatten2 m).foldl min F32MAX :=
  (foldl_flatten2 min m F32MAX).symm

theorem gridMax_eq (m : Grid) : gridMax m = (flatten2 m).foldl max F32MIN :=
  (foldl_flatten2 max m F32MIN).symm

/-- **C6** — on a non-degenerate grid (cell values are representable, the
min/max range is at least the `0.001` epsilon floor), `normalize2` produces a
grid whose minimum is exactly `0` and maximum exactly `1`, modulo the
contrast curve `gamma` applied afterwards (any curve fixing `0` and `1` and
monotone on `[0,1]`, as `powf 1.2` is); and for every input grid, degenerate
ones included, the denominator actually used is at least `0.001`, so the
rescale never divides by zero. -/
theorem C6_normalize_bounds (gamma : ℚ → ℚ) (m : Grid)
    (hg0 : gamma 0 = 0) (hg1 : gamma 1 = 1)
    (hmono : ∀ a b : ℚ, 0 ≤ a → a ≤ b → b ≤ 1 → gamma a ≤ gamma b)
    (hne : flatten2 m ≠ [])
    (hbound : ∀ v ∈ flatten2 m, F32MIN ≤ v ∧ v ≤ F32MAX)
    (hrange : 1/1000 ≤ gridMax m - gridMin m) :
    0 ∈ flatten2 (normalize2 gamma m) ∧ 1 ∈ flatten2 (normalize2 gamma m) ∧
      (∀ v ∈ flatten2 (normalize2 gamma m), 0 ≤ v ∧ v ≤ 1) ∧
      ∀ m2 : Grid, 1/1000 ≤ normRange m2 := by
  have hflat : flatten2 (normalize2 gamma m) =
      (flatten2 m).map (fun v => gamma ((v - gridMin m) / normRange m)) :=
    flatten2_map _ m
  have hminle : ∀ v ∈ flatten2 m, gridMin m ≤ v := by
    intro v hv
    rw [gridMin_eq]
    exact foldl_min_le_mem _ _ _ hv
  have hmaxge : ∀ v ∈ flatten2 m, v ≤ gridMax m := by
    intro v hv
    rw [gridMax_eq]
    exact mem_le_foldl_max _ _ _ hv
  have hrpos : (0:ℚ) < normRange m :=
    lt_of_lt_of_le (by norm_num) (le_max_right _ _)
  have hrange2 : normRange m = gridMax m - gridMin m := max_eq_left hrange
  have hminmem : gridMin m ∈ flatten2 m := by
    rw [gridMin_eq]
    rcases foldl_min_attained (flatten2 m) F32MAX with h | h
    · rcases List.exists_mem_of_ne_nil _ hne with ⟨v0, hv0⟩
      have h1 : (flatten2 m).foldl min F32MAX ≤ v0 := foldl_min_le_mem _ _ _ hv0
      have h2 : v0 = F32MAX := le_antisymm (hbound v0 hv0).2 (h ▸ h1)
      rw [h, ← h2]
      exact hv0
    · exact h
  have hmaxmem : gridMax m ∈ flatten2 m := by
    rw [gridMax_eq]
    rcases foldl_max_attained (flatten2 m) F32MIN with h | h
    · rcases List.exists_mem_of_ne_nil _ hne with ⟨v0, hv0⟩
      have h1 : v0 ≤ (flatten2 m).foldl max F32MIN := mem_le_foldl_max _ _ _ hv0
      have h2 : v0 = F32MIN := le_antisymm (h ▸ h1) (hbound v0 hv0).1
      rw [h, ← h2]
      exact hv0
    · exact h
  refine ⟨?_, ?_, ?_, fun m2 => le_max_right _ _⟩
  · rw [hflat]
    exact List.mem_map.mpr ⟨gridMin m, hminmem, by rw [sub_self, zero_div, hg0]⟩
  · rw [hflat]
    refine List.mem_map.mpr ⟨gridMax m, hmaxmem, ?_⟩
    rw [hrange2, div_self (by linarith : gridMax m - gridMin m ≠ 0), hg1]
  · intro v hv
    rw [hflat] at hv
    rcases List.mem_map.mp hv with ⟨w0, hw0, rfl⟩
    have h0t : 0 ≤ (w0 - gridMin m) / normRange m :=
      div_nonneg (sub_nonneg.mpr (hminle w0 hw0)) (le_of_lt hrpos)
    have h1t : (w0 - gridMin m) / normRange m ≤ 1 := by
      rw [div_le_one hrpos, hrange2]
      exact sub_le_sub_right (hmaxge w0 hw0) _
    constructor
    · rw [← hg0]
      exact hmono 0 _ le_rfl h0t h1t
    · rw [← hg1]
      exact hmono _ 1 h0t h1t le_rfl

/-- Closed witness for C6: the identity contrast curve on the grid `[[0,1]]`. -/
theorem C6_normalize_bounds_witness :
    0 ∈ flatten2 (normalize2 (fun v => v) [[0, 1]]) ∧
      1 ∈ flatten2 (normalize2 (fun v => v) [[0, 1]]) ∧
      (∀ v ∈ flatten2 (normalize2 (fun v => v) [[0, 1]]), 0 ≤ v ∧ v ≤ 1) ∧
      ∀ m2 : Grid, 1/1000 ≤ normRange m2 :=
  C6_normalize_bounds (fun v => v) [[0, 1]] rfl rfl (fun _ _ _ h2 _ => h2)
    (by simp [flatten2])
    (by
      intro v hv
      norm_num [flatten2] at hv
      rcases hv with rfl | rfl <;> norm_num [F32MIN, F32MAX])
    (by norm_num [gridMax, gridMin, F32MIN, F32MAX, List.foldl, min_def, max_def])

section DomainWarpDef

/-- Rust `f64::clamp(self, lo, hi)`: `lo` if below, `hi` if above, else self. -/
def ratClamp (v lo hi : ℚ) : ℚ := if v < lo then lo else if hi < v then hi else v

/-- `DomainWarp2D` (src/core/src/domain_warp.rs).  The two `&dyn
NoiseGenerator` references are modelled as the sampling functions they
provide (any 2D-capable sampler). -/
structure DomainWarp2D where
  base : ℚ → ℚ → ℚ
  warp : ℚ → ℚ → ℚ
  size : ℕ
  warp_strength : ℚ

/-- `DomainWarp2D::generate`: perturb each normalized cell coordinate by two
decorrelated warp samples, clamp into `[0,1]`, and sample the base there. -/
def DomainWarp2D.generate (dw : DomainWarp2D) : Grid :=
  (List.range dw.size).map fun (y : ℕ) =>
    (List.range dw.size).map fun (x : ℕ) =>
      let fx := (x : ℚ) / (dw.size : ℚ)
      let fy := (y : ℚ) / (dw.size : ℚ)
      let dx := dw.warp (fx * 3) (fy * 3)
      let dy := dw.warp ((fx + 26/5) * 3) ((fy + 26/5) * 3)
      let wx := ratClamp (fx + dx * dw.warp_strength) 0 1
      let wy := ratClamp (fy + dy * dw.warp_strength) 0 1
      dw.base wx wy

/-- Modelled from the claim: the grid obtained by sampling the base sampler
directly at each normalized cell coordinate `(x/size, y/size)`. -/
def directBaseGrid (base : ℚ → ℚ → ℚ) (size : ℕ) : Grid :=
  (List.range size).map fun (y : ℕ) =>
    (List.range size).map fun (x : ℕ) =>
      base ((x : ℚ) / (size : ℚ)) ((y : ℚ) / (size : ℚ))

end DomainWarpDef

/-- **C2** — with `warp_strength = 0`, `DomainWarp2D::generate` produces
exactly the grid of direct base samples at the normalized cell coordinates
`(x/size, y/size)`, for every base sampler, warp sampler and size: the
displacement terms vanish and the clamp is the identity on `[0,1)`. -/
theorem C2_domain_warp_identity (base warp : ℚ → ℚ → ℚ) (size : ℕ) :
    (DomainWarp2D.mk base warp size 0).generate = directBaseGrid base size := by
  simp only [DomainWarp2D.generate, directBaseGrid, mul_zero, add_zero]
  refine List.map_congr_left fun y hy => ?_
  refine List.map_congr_left fun x hx => ?_
  have hx2 : x < size := List.mem_range.mp hx
  have hy2 : y < size := List.mem_range.mp hy
  have hsize : (0:ℚ) < (size : ℚ) := by
    have : 0 < size := Nat.lt_of_le_of_lt (Nat.zero_le x) hx2
    exact_mod_cast this
  have hclamp : ∀ z : ℕ, z < size → ratClamp ((z : ℚ) / (size : ℚ)) 0 1 = (z : ℚ) / (size : ℚ) := by
    intro z hz
    have h0 : (0:ℚ) ≤ (z : ℚ) / (size : ℚ) :=
      div_nonneg (by exact_mod_cast Nat.zero_le z) (le_of_lt hsize)
    have h1 : (z : ℚ) / (size : ℚ) < 1 :=
      (div_lt_one hsize).mpr (by exact_mod_cast hz)
    unfold ratClamp
    rw [if_neg (not_lt.mpr h0), if_neg (not_lt.mpr (le_of_lt h1))]
  rw [hclamp x hx2, hclamp y hy2]

section ErosionDef

/-- `ThermalErosion2D` (src/core/src/erosion2.rs). -/
structure ThermalErosion2D where
  iterations : ℕ
  talus_angle : ℚ

/-- The `(dy, dx)` neighbor offsets `[(0,1),(1,0),(0,-1),(-1,0)]` scanned by
`ThermalErosion2D::apply`, i.e. right, down, left, up. -/
def neighborOffsets : List (ℤ × ℤ) := [(0, 1), (1, 0), (0, -1), (-1, 0)]

/-- Modelled from the claim's words: the scan order "up, down, left, right"
asserted by C4, for comparison with the source's order. -/
def offsetsUDLR : List (ℤ × ℤ) := [(-1, 0), (1, 0), (0, -1), (0, 1)]

/-- Body of the neighbor loop of `apply`: bounds-check one `(dy, dx)` offset
and replace the running `(max_diff, max_n)` whenever `diff > max_diff`. -/
def scanStep (m : Grid) (h w y x : ℕ) (acc : ℚ × (ℕ × ℕ)) (d : ℤ × ℤ) :
    ℚ × (ℕ × ℕ) :=
  let ny : ℤ := (y : ℤ) + d.1
  let nx : ℤ := (x : ℤ) + d.2
  if 0 ≤ ny ∧ ny < (h : ℤ) ∧ 0 ≤ nx ∧ nx < (w : ℤ) then
    let v := getCell m ny.toNat nx.toNat
    let diff := getCell m y x - v
    if acc.1 < diff then (diff, (ny.toNat, nx.toNat)) else acc
  else acc

/-- The inner neighbor scan of one cell in `apply`, parameterized by the
offsets list, starting from `(0.0, (0,0))`. -/
def scanNeighborsWith (offs : List (ℤ × ℤ)) (m : Grid) (h w y x : ℕ) :
    ℚ × (ℕ × ℕ) :=
  offs.foldl (scanStep m h w y x) (0, (0, 0))

/-- The neighbor scan exactly as the source performs it (its offset order). -/
def scanNeighbors (m : Grid) (h w y x : ℕ) : ℚ × (ℕ × ℕ) :=
  scanNeighborsWith neighborOffsets m h w y x

/-- Per-cell body of one erosion pass: when the steepest positive difference
exceeds the talus angle, move `(max_diff − talus_angle) * 0.5` from the cell
to that neighbor inside the delta buffer. -/
def erodeCellWith (offs : List (ℤ × ℤ)) (m : Grid) (h w : ℕ) (talus : ℚ)
    (d : Grid) (c : ℕ × ℕ) : Grid :=
  let res := scanNeighborsWith offs m h w c.1 c.2
  if talus < res.1 then
    let amount := (res.1 - talus) * (1/2)
    addAt (addAt d c.1 c.2 (-amount)) res.2.1 res.2.2 amount
  else d

/-- The cells `(y, x)` in the order the nested `for` loops visit them. -/
def cellList (h w : ℕ) : List (ℕ × ℕ) := (List.range h).product (List.range w)

/-- The delta buffer accumulated by one pass of `apply`. -/
def passDeltaWith (offs : List (ℤ × ℤ)) (m : Grid) (talus : ℚ) : Grid :=
  (cellList (gridH m) (gridW m)).foldl
    (erodeCellWith offs m (gridH m) (gridW m) talus)
    (zeroGrid (gridH m) (gridW m))

/-- The delta buffer with the source's scan order. -/
def passDelta (m : Grid) (talus : ℚ) : Grid := passDeltaWith neighborOffsets m talus

/-- One full pass of `apply`: accumulate the delta buffer over all cells,
then add it into the map cell by cell. -/
def applyPassWith (offs : List (ℤ × ℤ)) (m : Grid) (talus : ℚ) : Grid :=
  (cellList (gridH m) (gridW m)).foldl
    (fun g c => addAt g c.1 c.2 (getCell (passDeltaWith offs m talus) c.1 c.2)) m

/-- One pass with the source's scan order. -/
def applyPass (m : Grid) (talus : ℚ) : Grid := applyPassWith neighborOffsets m talus

/-- `ThermalErosion2D::apply`: `iterations` passes, each on the result of the
previous one. -/
def ThermalErosion2D.apply (e : ThermalErosion2D) (m : Grid) : Grid :=
  (fun mm => applyPass mm e.talus_angle)^[e.iterations] m

end ErosionDef

section ErosionSumLemmas

theorem getD_set_list (l : List ℚ) (i j : ℕ) (a dflt : ℚ) :
    (l.set i a).getD j dflt = if i = j ∧ i < l.length then a else l.getD j dflt := by
  simp only [List.getD_eq_getElem?_getD, List.getElem?_set]
  by_cases hij : i = j
  · subst hij
    by_cases hlen : i < l.length
    · simp [hlen]
    · simp only [if_pos rfl, if_neg hlen, hlen, and_false, if_false]
      rw [List.getElem?_len_le (Nat.le_of_not_lt hlen)]
      simp
  · simp [hij]

theorem getD_set_grid (g : Grid) (i j : ℕ) (row : List ℚ) :
    (g.set i row).getD j [] = if i = j ∧ i < g.length then row else g.getD j [] := by
  simp only [List.getD_eq_getElem?_getD, List.getElem?_set]
  by_cases hij : i = j
  · subst hij
    by_cases hlen : i < g.length
    · simp [hlen]
    · simp only [if_pos rfl, if_neg hlen, hlen, and_false, if_false]
      rw [List.getElem?_len_le (Nat.le_of_not_lt hlen)]
      simp
  · simp [hij]

/-- `addAt` changes exactly one in-bounds cell, by exactly `a`. -/
theorem getCell_addAt (g : Grid) (y x : ℕ) (a : ℚ) (y2 x2 : ℕ)
    (hy : y < g.length) (hx : x < (g.getD y []).length) :
    getCell (addAt g y x a) y2 x2 =
      getCell g y2 x2 + (if (y2, x2) = (y, x) then a else 0) := by
  unfold addAt getCell
  rw [getD_set_grid]
  by_cases hyy : y = y2
  · subst hyy
    rw [if_pos ⟨rfl, hy⟩, getD_set_list]
    by_cases hxx : x = x2
    · subst hxx
      rw [if_pos ⟨rfl, hx⟩, if_pos rfl]
    · rw [if_neg (fun hc => hxx hc.1), if_neg (fun hc => hxx (congrArg Prod.snd hc).symm),
        add_zero]
  · rw [if_neg (fun hc => hyy hc.1),
      if_neg (fun hc => hyy (congrArg Prod.fst hc).symm), add_zero]

/-- `addAt` never changes a cell other than its target (bounds irrelevant). -/
theorem getCell_addAt_ne (g : Grid) (y x : ℕ) (a : ℚ) (y2 x2 : ℕ)
    (hne : ¬ (y2, x2) = (y, x)) :
    getCell (addAt g y x a) y2 x2 = getCell g y2 x2 := by
  unfold addAt getCell
  rw [getD_set_grid]
  by_cases hyy : y = y2
  · subst hyy
    by_cases hlen : y < g.length
    · rw [if_pos ⟨rfl, hlen⟩, getD_set_list,
        if_neg (fun hc => hne (by rw [hc.1]))]
    · rw [if_neg (fun hc => hlen hc.2)]
  · rw [if_neg (fun hc => hyy hc.1)]

theorem addAt_length (g : Grid) (y x : ℕ) (a : ℚ) :
    (addAt g y x a).length = g.length := List.length_set ..

theorem addAt_rowLen (g : Grid) (y x : ℕ) (a : ℚ) (y2 : ℕ) :
    ((addAt g y x a).getD y2 []).length = (g.getD y2 []).length := by
  unfold addAt
  rw [getD_set_grid]
  by_cases hc : y = y2 ∧ y < g.length
  · rw [if_pos hc, List.length_set, hc.1]
  · rw [if_neg hc]

/-- Sum of the values of a grid over a list of cell positions. -/
def regionSum (R : List (ℕ × ℕ)) (g : Grid) : ℚ :=
  (R.map (fun p => getCell g p.1 p.2)).sum

theorem regionSum_addAt (R : List (ℕ × ℕ)) (g : Grid) (y x : ℕ) (a : ℚ)
    (hy : y < g.length) (hx : x < (g.getD y []).length) (hnd : R.Nodup) :
    regionSum R (addAt g y x a) =
      regionSum R g + (if (y, x) ∈ R then a else 0) := by
  induction R with
  | nil => simp [regionSum]
  | cons p R2 ih =>
      have hnd2 : R2.Nodup := hnd.of_cons
      unfold regionSum at ih ⊢
      simp only [List.map_cons, List.sum_cons]
      rw [getCell_addAt g y x a p.1 p.2 hy hx, ih hnd2]
      by_cases hp : (p.1, p.2) = (y, x)
      · have hpp : p = (y, x) := by rw [← hp]
        have hnotin : (y, x) ∉ R2 := by
          rw [← hpp]
          exact (List.nodup_cons.mp hnd).1
        rw [if_pos hp, if_neg hnotin, if_pos (by rw [← hpp]; exact List.mem_cons_self p R2)]
        ring
      · have hpp : ¬ p = (y, x) := fun hc => hp (by rw [hc])
        rw [if_neg hp]
        by_cases hin : (y, x) ∈ R2
        · rw [if_pos hin, if_pos (List.mem_cons_of_mem p hin)]
          ring
        · rw [if_neg hin, if_neg (by
            intro hc
            rcases List.mem_cons.mp hc with hc1 | hc2
            · exact hpp hc1.symm
            · exact hin hc2)]
          ring

end ErosionSumLemmas

section ErosionConservation

/-- Every target kept by the scan is an in-bounds cell (the `(0,0)` start
included, on a nonempty grid): material is only ever credited inside the
grid, never to out-of-bounds positions. -/
theorem foldl_scanStep_bounds (m : Grid) (h w y x : ℕ) (offs : List (ℤ × ℤ))
    (acc : ℚ × (ℕ × ℕ)) (ha : acc.2.1 < h ∧ acc.2.2 < w) :
    ((offs.foldl (scanStep m h w y x) acc).2.1 < h ∧
      (offs.foldl (scanStep m h w y x) acc).2.2 < w) := by
  induction offs generalizing acc with
  | nil => exact ha
  | cons d rest ih =>
      apply ih
      simp only [scanStep]
      split
      · split
        · next hin _ =>
            refine ⟨?_, ?_⟩ <;> simp only <;> omega
        · exact ha
      · exact ha

theorem scanWith_target_bounds (offs : List (ℤ × ℤ)) (m : Grid) (h w y x : ℕ)
    (h0 : 0 < h) (w0 : 0 < w) :
    (scanNeighborsWith offs m h w y x).2.1 < h ∧
      (scanNeighborsWith offs m h w y x).2.2 < w :=
  foldl_scanStep_bounds m h w y x offs (0, (0, 0)) ⟨h0, w0⟩

theorem erodeCellWith_length (offs : List (ℤ × ℤ)) (m : Grid) (h w : ℕ)
    (talus : ℚ) (d : Grid) (c : ℕ × ℕ) :
    (erodeCellWith offs m h w talus d c).length = d.length := by
  simp only [erodeCellWith]
  split
  · rw [addAt_length, addAt_length]
  · rfl

theorem erodeCellWith_rowLen (offs : List (ℤ × ℤ)) (m : Grid) (h w : ℕ)
    (talus : ℚ) (d : Grid) (c : ℕ × ℕ) (y2 : ℕ) :
    ((erodeCellWith offs m h w talus d c).getD y2 []).length =
      ((d.getD y2 []).length) := by
  simp only [erodeCellWith]
  split
  · rw [addAt_rowLen, addAt_rowLen]
  · rfl

/-- One cell's contribution to the delta buffer is conserved on any region
that contains the source if and only if it contains the target. -/
theorem regionSum_erodeCellWith (offs : List (ℤ × ℤ)) (m : Grid) (h w : ℕ)
    (talus : ℚ) (d : Grid) (c : ℕ × ℕ) (R : List (ℕ × ℕ))
    (hnd : R.Nodup)
    (hdlen : d.length = h) (hdrow : ∀ y2, y2 < h → (d.getD y2 []).length = w)
    (hc : c.1 < h ∧ c.2 < w)
    (htgt : (scanNeighborsWith offs m h w c.1 c.2).2.1 < h ∧
            (scanNeighborsWith offs m h w c.1 c.2).2.2 < w)
    (hclosed : talus < (scanNeighborsWith offs m h w c.1 c.2).1 →
      ((c.1, c.2) ∈ R ↔ (scanNeighborsWith offs m h w c.1 c.2).2 ∈ R)) :
    regionSum R (erodeCellWith offs m h w talus d c) = regionSum R d := by
  simp only [erodeCellWith]
  split
  · next hlt =>
      have hy1 : c.1 < d.length := hdlen ▸ hc.1
      have hx1 : c.2 < (d.getD c.1 []).length := by rw [hdrow c.1 hc.1]; exact hc.2
      have hlen2 : (scanNeighborsWith offs m h w c.1 c.2).2.1 <
          (addAt d c.1 c.2
            (-(((scanNeighborsWith offs m h w c.1 c.2).1 - talus) * (1/2)))).length := by
        rw [addAt_length, hdlen]; exact htgt.1
      have hrow2 : (scanNeighborsWith offs m h w c.1 c.2).2.2 <
          ((addAt d c.1 c.2
            (-(((scanNeighborsWith offs m h w c.1 c.2).1 - talus) * (1/2)))).getD
              (scanNeighborsWith offs m h w c.1 c.2).2.1 []).length := by
        rw [addAt_rowLen, hdrow _ htgt.1]; exact htgt.2
      rw [regionSum_addAt R _ _ _ _ hlen2 hrow2 hnd,
        regionSum_addAt R d c.1 c.2 _ hy1 hx1 hnd]
      by_cases hmem : (c.1, c.2) ∈ R
      · rw [if_pos hmem, if_pos (show ((scanNeighborsWith offs m h w c.1 c.2).2.1,
          (scanNeighborsWith offs m h w c.1 c.2).2.2) ∈ R from (hclosed hlt).mp hmem)]
        ring
      · rw [if_neg hmem, if_neg (show ¬ ((scanNeighborsWith offs m h w c.1 c.2).2.1,
          (scanNeighborsWith offs m h w c.1 c.2).2.2) ∈ R from
            fun hcon => hmem ((hclosed hlt).mpr hcon))]
        ring
  · rfl

end ErosionConservation

/-- Conservation over a whole pass: folding the per-cell erosion body over
any list of in-bounds cells leaves every transfer-closed region sum
unchanged. -/
theorem regionSum_foldl_erode (offs : List (ℤ × ℤ)) (m : Grid) (h w : ℕ)
    (talus : ℚ) (R : List (ℕ × ℕ)) (hnd : R.Nodup) (h0 : 0 < h) (w0 : 0 < w)
    (hclosed : ∀ y x, y < h → x < w →
      talus < (scanNeighborsWith offs m h w y x).1 →
      ((y, x) ∈ R ↔ (scanNeighborsWith offs m h w y x).2 ∈ R)) :
    ∀ (cs : List (ℕ × ℕ)) (d : Grid),
      (∀ c ∈ cs, c.1 < h ∧ c.2 < w) →
      d.length = h → (∀ y2, y2 < h → (d.getD y2 []).length = w) →
      regionSum R (cs.foldl (erodeCellWith offs m h w talus) d) = regionSum R d := by
  intro cs
  induction cs with
  | nil => intro d _ _ _; rfl
  | cons c rest ih =>
      intro d hcs hdlen hdrow
      have hcb := hcs c (List.mem_cons_self c rest)
      rw [List.foldl_cons,
        ih (erodeCellWith offs m h w talus d c)
          (fun c2 hc2 => hcs c2 (List.mem_cons_of_mem c hc2))
          (by rw [erodeCellWith_length]; exact hdlen)
          (fun y2 hy2 => by rw [erodeCellWith_rowLen]; exact hdrow y2 hy2)]
      exact regionSum_erodeCellWith offs m h w talus d c R hnd hdlen hdrow hcb
        (scanWith_target_bounds offs m h w c.1 c.2 h0 w0)
        (hclosed c.1 c.2 hcb.1 hcb.2)

theorem cellList_mem (h w : ℕ) (c : ℕ × ℕ) :
    c ∈ cellList h w ↔ c.1 < h ∧ c.2 < w := by
  obtain ⟨y, x⟩ := c
  simp [cellList, List.pair_mem_product, List.mem_range]

theorem cellList_nodup (h w : ℕ) : (cellList h w).Nodup :=
  (List.nodup_range h).product (List.nodup_range w)

theorem zeroGrid_length (h w : ℕ) : (zeroGrid h w).length = h :=
  List.length_replicate ..

theorem zeroGrid_rowLen (h w y2 : ℕ) (hy2 : y2 < h) :
    ((zeroGrid h w).getD y2 []).length = w := by
  unfold zeroGrid
  rw [List.getD_eq_getElem?_getD, List.getElem?_replicate, if_pos hy2]
  exact List.length_replicate ..

theorem regionSum_zeroGrid (R : List (ℕ × ℕ)) (h w : ℕ) :
    regionSum R (zeroGrid h w) = 0 := by
  unfold regionSum
  induction R with
  | nil => rfl
  | cons p R2 ih =>
      rw [List.map_cons, List.sum_cons, ih, getCell_zeroGrid, add_zero]

/-- Region sum after folding plain per-cell additions: each addition lands in
the region sum iff its cell is in the region. -/
theorem regionSum_foldl_addvals (R : List (ℕ × ℕ)) (hnd : R.Nodup)
    (f : ℕ × ℕ → ℚ) (h w : ℕ) :
    ∀ (cs : List (ℕ × ℕ)) (g : Grid),
      (∀ c ∈ cs, c.1 < h ∧ c.2 < w) →
      g.length = h → (∀ y2, y2 < h → (g.getD y2 []).length = w) →
      regionSum R (cs.foldl (fun g2 c => addAt g2 c.1 c.2 (f c)) g) =
        regionSum R g + ((cs.filter (fun c => decide (c ∈ R))).map f).sum := by
  intro cs
  induction cs with
  | nil => intro g _ _ _; simp
  | cons c rest ih =>
      intro g hcs hglen hgrow
      have hcb := hcs c (List.mem_cons_self c rest)
      rw [List.foldl_cons,
        ih (addAt g c.1 c.2 (f c))
          (fun c2 hc2 => hcs c2 (List.mem_cons_of_mem c hc2))
          (by rw [addAt_length]; exact hglen)
          (fun y2 hy2 => by rw [addAt_rowLen]; exact hgrow y2 hy2),
        regionSum_addAt R g c.1 c.2 (f c) (hglen ▸ hcb.1)
          (by rw [hgrow c.1 hcb.1]; exact hcb.2) hnd]
      rw [List.filter_cons]
      by_cases hmem : c ∈ R
      · rw [if_pos (show (c.1, c.2) ∈ R from hmem),
          if_pos (show decide (c ∈ R) = true from decide_eq_true hmem)]
        rw [List.map_cons, List.sum_cons]
        ring
      · rw [if_neg (show ¬ (c.1, c.2) ∈ R from hmem),
          if_neg (show ¬ decide (c ∈ R) = true from by simp [hmem])]
        ring

/-- Summing any function over the in-region cells of the full cell list is
the same as summing it over the region itself. -/
theorem filter_cellList_sum (h w : ℕ) (R : List (ℕ × ℕ)) (hnd : R.Nodup)
    (hsub : ∀ p ∈ R, p.1 < h ∧ p.2 < w) (f : ℕ × ℕ → ℚ) :
    (((cellList h w).filter (fun c => decide (c ∈ R))).map f).sum =
      (R.map f).sum := by
  have hperm : ((cellList h w).filter (fun c => decide (c ∈ R))).Perm R := by
    rw [List.perm_ext_iff_of_nodup ((cellList_nodup h w).filter _) hnd]
    intro a
    rw [List.mem_filter, cellList_mem, decide_eq_true_iff]
    exact ⟨fun hc => hc.2, fun hc => ⟨hsub a hc, hc⟩⟩
  exact (hperm.map f).sum_eq

/-- **C3** — one erosion pass conserves mass on every transfer-closed region:
for any region `R` of in-bounds cells such that each transfer of the pass has
its source in `R` exactly when its target is, the deltas accumulated by the
pass sum to exactly zero over `R`, hence adding them leaves the total height
over `R` unchanged; moreover every transfer target is an in-bounds cell, so
boundary cells only move material to neighbors that exist and nothing is
gained from out of bounds. -/
theorem C3_mass_conservation (m : Grid) (talus : ℚ) (R : List (ℕ × ℕ))
    (hnd : R.Nodup)
    (hrect : ∀ y2, y2 < gridH m → (m.getD y2 []).length = gridW m)
    (h0 : 0 < gridH m) (w0 : 0 < gridW m)
    (hsub : ∀ p ∈ R, p.1 < gridH m ∧ p.2 < gridW m)
    (hclosed : ∀ y x, y < gridH m → x < gridW m →
      talus < (scanNeighbors m (gridH m) (gridW m) y x).1 →
      ((y, x) ∈ R ↔ (scanNeighbors m (gridH m) (gridW m) y x).2 ∈ R)) :
    regionSum R (passDelta m talus) = 0 ∧
      regionSum R (applyPass m talus) = regionSum R m ∧
      ∀ y x, y < gridH m → x < gridW m →
        (scanNeighbors m (gridH m) (gridW m) y x).2.1 < gridH m ∧
        (scanNeighbors m (gridH m) (gridW m) y x).2.2 < gridW m := by
  have hd0 : regionSum R (passDelta m talus) = 0 := by
    unfold passDelta passDeltaWith
    rw [regionSum_foldl_erode neighborOffsets m (gridH m) (gridW m) talus R hnd h0 w0
      hclosed (cellList (gridH m) (gridW m)) (zeroGrid (gridH m) (gridW m))
      (fun c hc => (cellList_mem _ _ c).mp hc)
      (zeroGrid_length _ _)
      (fun y2 hy2 => zeroGrid_rowLen _ _ y2 hy2)]
    exact regionSum_zeroGrid R _ _
  refine ⟨hd0, ?_, fun y x _ _ => scanWith_target_bounds _ m _ _ y x h0 w0⟩
  unfold applyPass applyPassWith
  rw [regionSum_foldl_addvals R hnd
    (fun c => getCell (passDeltaWith neighborOffsets m talus) c.1 c.2)
    (gridH m) (gridW m) (cellList (gridH m) (gridW m)) m
    (fun c hc => (cellList_mem _ _ c).mp hc) rfl hrect,
    filter_cellList_sum (gridH m) (gridW m) R hnd hsub
    (fun c => getCell (passDeltaWith neighborOffsets m talus) c.1 c.2)]
  have h2 : (R.map
      (fun c => getCell (passDeltaWith neighborOffsets m talus) c.1 c.2)).sum = 0 := hd0
  rw [h2, add_zero]

/-- Closed witness for C3: the whole 2×2 grid `[[2,0],[0,0]]` is a
transfer-closed region (every in-bounds transfer stays inside it). -/
theorem C3_mass_conservation_witness :
    regionSum (cellList 2 2) (passDelta [[2, 0], [0, 0]] 1) = 0 ∧
      regionSum (cellList 2 2) (applyPass [[2, 0], [0, 0]] 1) =
        regionSum (cellList 2 2) [[2, 0], [0, 0]] ∧
      ∀ y x, y < gridH [[2, 0], [0, 0]] → x < gridW [[2, 0], [0, 0]] →
        (scanNeighbors [[2, 0], [0, 0]] (gridH [[2, 0], [0, 0]])
          (gridW [[2, 0], [0, 0]]) y x).2.1 < gridH [[2, 0], [0, 0]] ∧
        (scanNeighbors [[2, 0], [0, 0]] (gridH [[2, 0], [0, 0]])
          (gridW [[2, 0], [0, 0]]) y x).2.2 < gridW [[2, 0], [0, 0]] :=
  C3_mass_conservation [[2, 0], [0, 0]] 1 (cellList 2 2)
    (cellList_nodup 2 2)
    (by
      intro y2 hy2
      have hy2b : y2 < 2 := hy2
      interval_cases y2 <;> rfl)
    (by norm_num [gridH]) (by norm_num [gridW, getCell])
    (fun p hp => (cellList_mem 2 2 p).mp hp)
    (fun y x hy hx _ => by
      have ht := scanWith_target_bounds neighborOffsets [[2, 0], [0, 0]] 2 2 y x
        (by norm_num) (by norm_num)
      constructor
      · intro _
        exact (cellList_mem 2 2 _).mpr ⟨ht.1, ht.2⟩
      · intro _
        exact (cellList_mem 2 2 _).mpr ⟨hy, hx⟩)

section SteepestNeighbor

/-- Modelled from the claim's words: the in-bounds axis-aligned neighbors of
`(y, x)` in scan order, each paired with the elevation difference
`current − neighbor`. -/
def neighborList (offs : List (ℤ × ℤ)) (m : Grid) (h w y x : ℕ) :
    List ((ℕ × ℕ) × ℚ) :=
  offs.filterMap (fun d =>
    let ny : ℤ := (y : ℤ) + d.1
    let nx : ℤ := (x : ℤ) + d.2
    if 0 ≤ ny ∧ ny < (h : ℤ) ∧ 0 ≤ nx ∧ nx < (w : ℤ) then
      some ((ny.toNat, nx.toNat), getCell m y x - getCell m ny.toNat nx.toNat)
    else none)

/-- The tournament step of the scan, on (position, difference) pairs. -/
def pairStep (acc : ℚ × (ℕ × ℕ)) (pd : (ℕ × ℕ) × ℚ) : ℚ × (ℕ × ℕ) :=
  if acc.1 < pd.2 then (pd.2, pd.1) else acc

/-- The source's bounds-checked offset fold is the tournament fold over the
in-bounds neighbor list. -/
theorem foldl_scanStep_eq_pairFold (m : Grid) (h w y x : ℕ)
    (offs : List (ℤ × ℤ)) (acc : ℚ × (ℕ × ℕ)) :
    offs.foldl (scanStep m h w y x) acc =
      (neighborList offs m h w y x).foldl pairStep acc := by
  induction offs generalizing acc with
  | nil => rfl
  | cons d rest ih =>
      rw [List.foldl_cons]
      unfold neighborList
      rw [List.filterMap_cons]
      by_cases hin : 0 ≤ (y : ℤ) + d.1 ∧ (y : ℤ) + d.1 < (h : ℤ) ∧
          0 ≤ (x : ℤ) + d.2 ∧ (x : ℤ) + d.2 < (w : ℤ)
      · have hstep : scanStep m h w y x acc d =
            pairStep acc (((((y : ℤ) + d.1).toNat, ((x : ℤ) + d.2).toNat)),
              getCell m y x - getCell m ((y : ℤ) + d.1).toNat ((x : ℤ) + d.2).toNat) := by
          simp only [scanStep, pairStep, if_pos hin]
        simp only [if_pos hin]
        rw [hstep, ih]
        rfl
      · have hstep : scanStep m h w y x acc d = acc := by
          simp only [scanStep, if_neg hin]
        simp only [if_neg hin]
        rw [hstep, ih]
        rfl

theorem scanWith_eq_pairFold (offs : List (ℤ × ℤ)) (m : Grid) (h w y x : ℕ) :
    scanNeighborsWith offs m h w y x =
      (neighborList offs m h w y x).foldl pairStep (0, (0, 0)) :=
  foldl_scanStep_eq_pairFold m h w y x offs (0, (0, 0))

/-- The first component of the tournament fold is the running maximum. -/
theorem pairFold_fst (l : List ((ℕ × ℕ) × ℚ)) (acc : ℚ × (ℕ × ℕ)) :
    (l.foldl pairStep acc).1 = l.foldl (fun mx pd => max mx pd.2) acc.1 := by
  induction l generalizing acc with
  | nil => rfl
  | cons pd rest ih =>
      have hstep : (pairStep acc pd).1 = max acc.1 pd.2 := by
        unfold pairStep
        by_cases hlt : acc.1 < pd.2
        · rw [if_pos hlt, max_eq_right (le_of_lt hlt)]
        · rw [if_neg hlt, max_eq_left (not_lt.mp hlt)]
      rw [List.foldl_cons, List.foldl_cons, ih (pairStep acc pd), hstep]

theorem pairFold_le (l : List ((ℕ × ℕ) × ℚ)) (acc : ℚ × (ℕ × ℕ)) :
    acc.1 ≤ (l.foldl pairStep acc).1 ∧
      ∀ pd ∈ l, pd.2 ≤ (l.foldl pairStep acc).1 := by
  induction l generalizing acc with
  | nil =>
      refine ⟨le_rfl, ?_⟩
      intro pd hpd
      cases hpd
  | cons pd rest ih =>
      have hstep : acc.1 ≤ (pairStep acc pd).1 ∧ pd.2 ≤ (pairStep acc pd).1 := by
        unfold pairStep
        by_cases hlt : acc.1 < pd.2
        · rw [if_pos hlt]
          exact ⟨le_of_lt hlt, le_rfl⟩
        · rw [if_neg hlt]
          exact ⟨le_rfl, not_lt.mp hlt⟩
      obtain ⟨ih1, ih2⟩ := ih (pairStep acc pd)
      rw [List.foldl_cons]
      refine ⟨le_trans hstep.1 ih1, ?_⟩
      intro pd2 hpd2
      rcases List.mem_cons.mp hpd2 with hh | hh
      · rw [hh]
        exact le_trans hstep.2 ih1
      · exact ih2 pd2 hh

theorem pairFold_stay (l : List ((ℕ × ℕ) × ℚ)) (acc : ℚ × (ℕ × ℕ))
    (hall : ∀ pd ∈ l, pd.2 ≤ acc.1) : l.foldl pairStep acc = acc := by
  induction l with
  | nil => rfl
  | cons pd rest ih =>
      rw [List.foldl_cons,
        show pairStep acc pd = acc from by
          unfold pairStep
          rw [if_neg (not_lt.mpr (hall pd (List.mem_cons_self pd rest)))]]
      exact ih (fun pd2 hm => hall pd2 (List.mem_cons_of_mem pd hm))

/-- Whenever the fold strictly improves on its start, the kept position is
the first list entry attaining the final maximum (first-found tie winner). -/
theorem pairFold_found (l : List ((ℕ × ℕ) × ℚ)) :
    ∀ acc : ℚ × (ℕ × ℕ), acc.1 < (l.foldl pairStep acc).1 →
      l.find? (fun pd => decide (pd.2 = (l.foldl pairStep acc).1)) =
        some ((l.foldl pairStep acc).2, (l.foldl pairStep acc).1) := by
  induction l with
  | nil =>
      intro acc hacc
      exact absurd hacc (lt_irrefl _)
  | cons pd rest ih =>
      intro acc hacc
      rw [List.foldl_cons] at hacc ⊢
      by_cases hlt : acc.1 < pd.2
      · have hacc2 : pairStep acc pd = (pd.2, pd.1) := by
          unfold pairStep
          rw [if_pos hlt]
        rw [hacc2] at hacc ⊢
        by_cases hM : pd.2 < (rest.foldl pairStep (pd.2, pd.1)).1
        · rw [List.find?_cons_of_neg _ (by
            simp only [decide_eq_true_eq]
            exact ne_of_lt hM)]
          exact ih (pd.2, pd.1) hM
        · have hle : (rest.foldl pairStep (pd.2, pd.1)).1 = pd.2 :=
            le_antisymm (not_lt.mp hM) (pairFold_le rest (pd.2, pd.1)).1
          have hstay : rest.foldl pairStep (pd.2, pd.1) = (pd.2, pd.1) :=
            pairFold_stay rest (pd.2, pd.1) (fun pd2 hm => by
              have := (pairFold_le rest (pd.2, pd.1)).2 pd2 hm
              rw [hle] at this
              exact this)
          rw [hstay]
          rw [List.find?_cons_of_pos _ (by simp)]
      · have hacc2 : pairStep acc pd = acc := by
          unfold pairStep
          rw [if_neg hlt]
        rw [hacc2] at hacc ⊢
        rw [List.find?_cons_of_neg _ (by
          simp only [decide_eq_true_eq]
          exact ne_of_lt (lt_of_le_of_lt (not_lt.mp hlt) hacc))]
        exact ih acc hacc

end SteepestNeighbor

/-- **C4 (amended)** — per cell, one erosion pass scans the in-bounds
axis-aligned neighbors in the order right, down, left, up; the scan's
`max_diff` is the maximum positive elevation difference (floored at `0`)
over those neighbors; when it exceeds the (nonnegative) talus angle the cell
sends exactly `(max_diff − talus) * 0.5` through the delta buffer to the
first neighbor in that order attaining `max_diff` (first-found tie winner),
and otherwise the cell moves nothing. -/
theorem C4_steepest_neighbor_rule (m : Grid) (h w : ℕ) (talus : ℚ)
    (d : Grid) (y x : ℕ) (ht : 0 ≤ talus) :
    (scanNeighbors m h w y x).1 =
        (neighborList neighborOffsets m h w y x).foldl
          (fun mx pd => max mx pd.2) 0 ∧
      (talus < (neighborList neighborOffsets m h w y x).foldl
          (fun mx pd => max mx pd.2) 0 →
        (neighborList neighborOffsets m h w y x).find?
            (fun pd => decide (pd.2 =
              (neighborList neighborOffsets m h w y x).foldl
                (fun mx pd => max mx pd.2) 0)) =
          some ((scanNeighbors m h w y x).2,
            (neighborList neighborOffsets m h w y x).foldl
              (fun mx pd => max mx pd.2) 0) ∧
        erodeCellWith neighborOffsets m h w talus d (y, x) =
          addAt (addAt d y x
              (-(((neighborList neighborOffsets m h w y x).foldl
                  (fun mx pd => max mx pd.2) 0 - talus) * (1/2))))
            (scanNeighbors m h w y x).2.1 (scanNeighbors m h w y x).2.2
            (((neighborList neighborOffsets m h w y x).foldl
                (fun mx pd => max mx pd.2) 0 - talus) * (1/2))) ∧
      (¬ talus < (neighborList neighborOffsets m h w y x).foldl
          (fun mx pd => max mx pd.2) 0 →
        erodeCellWith neighborOffsets m h w talus d (y, x) = d) := by
  have hfst : (scanNeighbors m h w y x).1 =
      (neighborList neighborOffsets m h w y x).foldl (fun mx pd => max mx pd.2) 0 := by
    rw [scanNeighbors, scanWith_eq_pairFold, pairFold_fst]
  refine ⟨hfst, ?_, ?_⟩
  · intro hlt
    have hacc : ((0 : ℚ), ((0 : ℕ), (0 : ℕ))).1 <
        ((neighborList neighborOffsets m h w y x).foldl pairStep (0, (0, 0))).1 := by
      rw [← scanWith_eq_pairFold, ← scanNeighbors, hfst]
      exact lt_of_le_of_lt ht hlt
    have hfind := pairFold_found (neighborList neighborOffsets m h w y x) (0, (0, 0)) hacc
    constructor
    · rw [← scanWith_eq_pairFold, ← scanNeighbors] at hfind
      rw [hfst] at hfind
      exact hfind
    · simp only [erodeCellWith]
      rw [show (scanNeighborsWith neighborOffsets m h w (y, x).1 (y, x).2) =
          scanNeighbors m h w y x from rfl]
      rw [if_pos (by rw [hfst]; exact hlt), hfst]
  · intro hnlt
    simp only [erodeCellWith]
    rw [show (scanNeighborsWith neighborOffsets m h w (y, x).1 (y, x).2) =
        scanNeighbors m h w y x from rfl]
    rw [if_neg (by rw [hfst]; exact hnlt)]

/-- Closed witness for C4 at the 2×2 grid `[[2,0],[0,0]]`, cell `(0,0)`,
talus angle `1`. -/
theorem C4_steepest_neighbor_rule_witness :
    (scanNeighbors [[2, 0], [0, 0]] 2 2 0 0).1 =
        (neighborList neighborOffsets [[2, 0], [0, 0]] 2 2 0 0).foldl
          (fun mx pd => max mx pd.2) 0 ∧
      (1 < (neighborList neighborOffsets [[2, 0], [0, 0]] 2 2 0 0).foldl
          (fun mx pd => max mx pd.2) 0 →
        (neighborList neighborOffsets [[2, 0], [0, 0]] 2 2 0 0).find?
            (fun pd => decide (pd.2 =
              (neighborList neighborOffsets [[2, 0], [0, 0]] 2 2 0 0).foldl
                (fun mx pd => max mx pd.2) 0)) =
          some ((scanNeighbors [[2, 0], [0, 0]] 2 2 0 0).2,
            (neighborList neighborOffsets [[2, 0], [0, 0]] 2 2 0 0).foldl
              (fun mx pd => max mx pd.2) 0) ∧
        erodeCellWith neighborOffsets [[2, 0], [0, 0]] 2 2 1 (zeroGrid 2 2) (0, 0) =
          addAt (addAt (zeroGrid 2 2) 0 0
              (-(((neighborList neighborOffsets [[2, 0], [0, 0]] 2 2 0 0).foldl
                  (fun mx pd => max mx pd.2) 0 - 1) * (1/2))))
            (scanNeighbors [[2, 0], [0, 0]] 2 2 0 0).2.1
            (scanNeighbors [[2, 0], [0, 0]] 2 2 0 0).2.2
            (((neighborList neighborOffsets [[2, 0], [0, 0]] 2 2 0 0).foldl
                (fun mx pd => max mx pd.2) 0 - 1) * (1/2))) ∧
      (¬ 1 < (neighborList neighborOffsets [[2, 0], [0, 0]] 2 2 0 0).foldl
          (fun mx pd => max mx pd.2) 0 →
        erodeCellWith neighborOffsets [[2, 0], [0, 0]] 2 2 1 (zeroGrid 2 2) (0, 0) =
          zeroGrid 2 2) :=
  C4_steepest_neighbor_rule [[2, 0], [0, 0]] 2 2 1 (zeroGrid 2 2) 0 0 (by norm_num)

/-- A 3×3 grid whose center cell ties its up and right neighbors (both two
units lower), so the scan order decides where the material goes. -/
def erosionTieGrid : Grid := [[2, 0, 2], [2, 2, 0], [2, 2, 2]]

/-- **C4 (counterexample)** — at `erosionTieGrid`, cell `(1,1)`, talus `1`:
the maximum positive difference `2` is attained by both the up neighbor
`(0,1)` and the right neighbor `(1,2)`; the pass body actually sends the
material to `(1,2)` — the first-found winner of the order right, down,
left, up — whereas the first-found winner of the order up, down, left,
right asserted by the claim is `(0,1)`. -/
theorem C4_scan_order_counterexample :
    (scanNeighbors erosionTieGrid 3 3 1 1).2 = (1, 2) ∧
      erodeCellWith neighborOffsets erosionTieGrid 3 3 1 (zeroGrid 3 3) (1, 1) =
        addAt (addAt (zeroGrid 3 3) 1 1 (-(1/2))) 1 2 (1/2) ∧
      (neighborList offsetsUDLR erosionTieGrid 3 3 1 1).foldl
          (fun mx pd => max mx pd.2) 0 = 2 ∧
      (neighborList offsetsUDLR erosionTieGrid 3 3 1 1).find?
          (fun pd => decide (pd.2 = 2)) = some ((0, 1), 2) ∧
      ¬ ((0, 1) : ℕ × ℕ) = (1, 2) := by
  have ht2 : Int.toNat 2 = 2 := rfl
  refine ⟨?_, ?_, ?_, ?_, by decide⟩ <;>
    norm_num [scanNeighbors, scanNeighborsWith, scanStep, erodeCellWith,
      neighborList, neighborOffsets, offsetsUDLR, erosionTieGrid, getCell,
      List.foldl, List.filterMap_cons, List.find?, ht2, Int.toNat_ofNat,
      Int.toNat_zero, Int.toNat_one, max_def]

section RngPerm

/-- One step of the xorshift u64 stream
(`x ^= x << 13; x ^= x >> 7; x ^= x << 17`), wrapping at `2^64`. -/
def xorshift64 (x : ℕ) : ℕ :=
  let x1 := (x ^^^ (x <<< 13)) % 2 ^ 64
  let x2 := x1 ^^^ (x1 >>> 7)
  (x2 ^^^ (x2 <<< 17)) % 2 ^ 64

/-- `Vec::swap(i, j)` on the permutation being shuffled. -/
def listSwap (p : List ℕ) (i j : ℕ) : List ℕ :=
  (p.set i (p.getD j 0)).set j (p.getD i 0)

/-- One Fisher–Yates step: advance the xorshift state, draw
`j = (x & 0xFF) % (i + 1)`, swap `p[i]` and `p[j]`. -/
def fisherYatesStep : (List ℕ × ℕ) → ℕ → (List ℕ × ℕ)
  | (p, x), i =>
    let x2 := xorshift64 x
    let j := (x2 % 256) % (i + 1)
    (listSwap p i j, x2)

/-- The shuffled 256-entry permutation built from the already-XORed seed:
`for i in (1..256).rev() { ... }` over the initial table `0..=255`. -/
def buildPerm (seedx : ℕ) : List ℕ :=
  (((List.range 255).map (fun k => 255 - k)).foldl fisherYatesStep
    (List.range 256, seedx)).1

/-- Lookup in the 512-entry doubled table: `perm[i] = p[i & 255]`.  Every
permutation access in the source has index `< 512`, and the doubled table
repeats with period 256, so reducing the index mod 256 is exact. -/
def permAt (p : List ℕ) (i : ℕ) : ℕ := p.getD (i % 256) 0

/-- Ken Perlin's fade curve `6t^5 − 15t^4 + 10t^3` in Horner form, as in the
source. -/
def fade (t : ℚ) : ℚ := t * t * t * (t * (t * 6 - 15) + 10)

/-- `lerp(a, b, t) = a + t (b − a)` shared by both Perlin samplers. -/
def perlinLerp (a b t : ℚ) : ℚ := a + t * (b - a)

end RngPerm

section Perlin2Def

/-- `Perlin2D` (src/core/src/perlin2.rs); the permutation table is built at
construction from `seed ^ 0xDEADBEEFCAFEBABE`. -/
structure Perlin2D where
  seed : ℕ
  frequency : ℚ
  persistence : ℚ
  octaves : ℕ
  perm : List ℕ

/-- `Perlin2D::new`. -/
def Perlin2D.new (seed : ℕ) (frequency persistence : ℚ) (octaves : ℕ) :
    Perlin2D :=
  { seed := seed, frequency := frequency, persistence := persistence,
    octaves := octaves,
    perm := buildPerm ((seed % 2 ^ 64) ^^^ 0xDEADBEEFCAFEBABE) }

/-- `Perlin2D::grad`: low 4 bits of the hash pick the gradient. -/
def Perlin2D.grad (hash : ℕ) (x y : ℚ) : ℚ :=
  let h := hash % 16
  let u := if h < 8 then x else y
  let v := if h < 8 then y else x
  let su := if h &&& 1 = 0 then u else -u
  let sv := if h &&& 2 = 0 then v else -v
  su + sv

/-- Raw single-octave 2D Perlin noise.  `x.floor() as i32 & 255` is the
floor reduced mod 256 (nonnegative remainder). -/
def Perlin2D.noise (p : Perlin2D) (x y : ℚ) : ℚ :=
  let xi := ((Int.floor x) % 256).toNat
  let yi := ((Int.floor y) % 256).toNat
  let xf := x - Int.floor x
  let yf := y - Int.floor y
  let u := fade xf
  let v := fade yf
  let aa := permAt p.perm ((permAt p.perm xi + yi) % 256)
  let ab := permAt p.perm ((permAt p.perm xi + (yi + 1) % 256) % 256)
  let ba := permAt p.perm ((permAt p.perm ((xi + 1) % 256) + yi) % 256)
  let bb := permAt p.perm ((permAt p.perm ((xi + 1) % 256) + (yi + 1) % 256) % 256)
  let x1 := perlinLerp (Perlin2D.grad aa xf yf) (Perlin2D.grad ba (xf - 1) yf) u
  let x2 := perlinLerp (Perlin2D.grad ab xf (yf - 1))
    (Perlin2D.grad bb (xf - 1) (yf - 1)) u
  perlinLerp x1 x2 v

/-- `Perlin2D::get2`: the multi-octave fractal sum, state
`(amplitude, freq, total, max_amp)` threaded exactly as in the loop. -/
def Perlin2D.get2 (p : Perlin2D) (x y : ℚ) : ℚ :=
  let r := (List.range p.octaves).foldl
    (fun (acc : ℚ × ℚ × ℚ × ℚ) _ =>
      (acc.1 * p.persistence, acc.2.1 * 2,
        acc.2.2.1 + p.noise (x * acc.2.1) (y * acc.2.1) * acc.1,
        acc.2.2.2 + acc.1))
    (1, p.frequency, 0, 0)
  r.2.2.1 / r.2.2.2

end Perlin2Def

section Perlin3Def

/-- `Perlin3D` (src/core/src/perlin3.rs); seed constant `0xAABBCCDDEEFF1122`. -/
structure Perlin3D where
  seed : ℕ
  frequency : ℚ
  persistence : ℚ
  octaves : ℕ
  perm : List ℕ

/-- `Perlin3D::new`. -/
def Perlin3D.new (seed : ℕ) (frequency persistence : ℚ) (octaves : ℕ) :
    Perlin3D :=
  { seed := seed, frequency := frequency, persistence := persistence,
    octaves := octaves,
    perm := buildPerm ((seed % 2 ^ 64) ^^^ 0xAABBCCDDEEFF1122) }

/-- `Perlin3D::grad`: twelve directions from the low 4 hash bits. -/
def Perlin3D.grad (hash : ℕ) (x y z : ℚ) : ℚ :=
  let h := hash % 16
  let u := if h < 8 then x else y
  let v := if h < 4 then y else if h = 12 ∨ h = 14 then x else z
  let su := if h &&& 1 = 0 then u else -u
  let sv := if h &&& 2 = 0 then v else -v
  su + sv

/-- Raw single-octave 3D Perlin noise: hash the eight cube corners through
three chained doubled-table lookups and trilinearly interpolate. -/
def Perlin3D.noise (p : Perlin3D) (x y z : ℚ) : ℚ :=
  let xi := ((Int.floor x) % 256).toNat
  let yi := ((Int.floor y) % 256).toNat
  let zi := ((Int.floor z) % 256).toNat
  let xf := x - Int.floor x
  let yf := y - Int.floor y
  let zf := z - Int.floor z
  let u := fade xf
  let v := fade yf
  let w := fade zf
  let aaa := permAt p.perm ((permAt p.perm ((permAt p.perm xi + yi) % 256) + zi) % 256)
  let aba := permAt p.perm
    ((permAt p.perm ((permAt p.perm xi + (yi + 1) % 256) % 256) + zi) % 256)
  let aab := permAt p.perm
    ((permAt p.perm ((permAt p.perm xi + yi) % 256) + (zi + 1) % 256) % 256)
  let abb := permAt p.perm
    ((permAt p.perm ((permAt p.perm xi + (yi + 1) % 256) % 256) + (zi + 1) % 256) % 256)
  let baa := permAt p.perm
    ((permAt p.perm ((permAt p.perm ((xi + 1) % 256) + yi) % 256) + zi) % 256)
  let bba := permAt p.perm
    ((permAt p.perm ((permAt p.perm ((xi + 1) % 256) + (yi + 1) % 256) % 256) + zi) % 256)
  let bab := permAt p.perm
    ((permAt p.perm ((permAt p.perm ((xi + 1) % 256) + yi) % 256) + (zi + 1) % 256) % 256)
  let bbb := permAt p.perm
    ((permAt p.perm ((permAt p.perm ((xi + 1) % 256) + (yi + 1) % 256) % 256) + (zi + 1) % 256) % 256)
  let x1 := perlinLerp (Perlin3D.grad aaa xf yf zf)
    (Perlin3D.grad baa (xf - 1) yf zf) u
  let x2 := perlinLerp (Perlin3D.grad aba xf (yf - 1) zf)
    (Perlin3D.grad bba (xf - 1) (yf - 1) zf) u
  let y1 := perlinLerp x1 x2 v
  let x3 := perlinLerp (Perlin3D.grad aab xf yf (zf - 1))
    (Perlin3D.grad bab (xf - 1) yf (zf - 1)) u
  let x4 := perlinLerp (Perlin3D.grad abb xf (yf - 1) (zf - 1))
    (Perlin3D.grad bbb (xf - 1) (yf - 1) (zf - 1)) u
  let y2 := perlinLerp x3 x4 v
  perlinLerp y1 y2 w

/-- `Perlin3D::get3`: the multi-octave fractal sum. -/
def Perlin3D.get3 (p : Perlin3D) (x y z : ℚ) : ℚ :=
  let r := (List.range p.octaves).foldl
    (fun (acc : ℚ × ℚ × ℚ × ℚ) _ =>
      (acc.1 * p.persistence, acc.2.1 * 2,
        acc.2.2.1 + p.noise (x * acc.2.1) (y * acc.2.1) (z * acc.2.1) * acc.1,
        acc.2.2.2 + acc.1))
    (1, p.frequency, 0, 0)
  r.2.2.1 / r.2.2.2

end Perlin3Def

section Simplex2Def

/-- The twelve fixed gradient directions of `Simplex2D`. -/
def simplexGrad3 : List (ℤ × ℤ) :=
  [(1, 1), (-1, 1), (1, -1), (-1, -1), (1, 0), (-1, 0),
   (0, 1), (0, -1), (1, 2), (-1, 2), (1, -2), (-1, -2)]

/-- `Simplex2D` (src/core/src/simplex2.rs); seed constant
`0x1234_5678_9ABC_DEF0`. -/
structure Simplex2D where
  seed : ℕ
  frequency : ℚ
  persistence : ℚ
  octaves : ℕ
  perm : List ℕ
  grad3 : List (ℤ × ℤ)

/-- `Simplex2D::new`. -/
def Simplex2D.new (seed : ℕ) (frequency persistence : ℚ) (octaves : ℕ) :
    Simplex2D :=
  { seed := seed, frequency := frequency, persistence := persistence,
    octaves := octaves,
    perm := buildPerm ((seed % 2 ^ 64) ^^^ 0x123456789ABCDEF0),
    grad3 := simplexGrad3 }

/-- The `SQRT_3` decimal literal of the source, read as an exact rational. -/
def SQRT3LIT : ℚ := 17320508075688772935 / 10 ^ 19

/-- `F2 = 0.5 (√3 − 1)` — the simplex skew factor, from the literal. -/
def SIMPLEX_F2 : ℚ := (1/2) * (SQRT3LIT - 1)

/-- `G2 = (3 − √3)/6` — the simplex unskew factor, from the literal. -/
def SIMPLEX_G2 : ℚ := (3 - SQRT3LIT) / 6

/-- `Simplex2D::dot`. -/
def simplexDot (g : ℤ × ℤ) (x y : ℚ) : ℚ := (g.1 : ℚ) * x + (g.2 : ℚ) * y

/-- `Simplex2D::raw_noise`: skew into simplex space, pick the triangle,
hash the three corners through the doubled table mod 12, and accumulate the
radial-falloff contributions, scaled by 70. -/
def Simplex2D.raw_noise (p : Simplex2D) (xin yin : ℚ) : ℚ :=
  let s := (xin + yin) * SIMPLEX_F2
  let i := Int.floor (xin + s)
  let j := Int.floor (yin + s)
  let t := ((i + j) : ℚ) * SIMPLEX_G2
  let x0 := xin - ((i : ℚ) - t)
  let y0 := yin - ((j : ℚ) - t)
  let ij1 : ℕ × ℕ := if y0 < x0 then (1, 0) else (0, 1)
  let x1 := x0 - (ij1.1 : ℚ) + SIMPLEX_G2
  let y1 := y0 - (ij1.2 : ℚ) + SIMPLEX_G2
  let x2 := x0 - 1 + 2 * SIMPLEX_G2
  let y2 := y0 - 1 + 2 * SIMPLEX_G2
  let ii := (i % 256).toNat
  let jj := (j % 256).toNat
  let gi0 := (permAt p.perm (ii + permAt p.perm jj)) % 12
  let gi1 := (permAt p.perm (ii + ij1.1 + permAt p.perm (jj + ij1.2))) % 12
  let gi2 := (permAt p.perm (ii + 1 + permAt p.perm (jj + 1))) % 12
  let t0 := 1/2 - x0 * x0 - y0 * y0
  let n0 := if 0 < t0 then
    (t0 * t0) * (t0 * t0) * simplexDot (p.grad3.getD gi0 (0, 0)) x0 y0 else 0
  let t1 := 1/2 - x1 * x1 - y1 * y1
  let n1 := if 0 < t1 then
    (t1 * t1) * (t1 * t1) * simplexDot (p.grad3.getD gi1 (0, 0)) x1 y1 else 0
  let t2 := 1/2 - x2 * x2 - y2 * y2
  let n2 := if 0 < t2 then
    (t2 * t2) * (t2 * t2) * simplexDot (p.grad3.getD gi2 (0, 0)) x2 y2 else 0
  70 * (n0 + n1 + n2)

/-- `Simplex2D::get2`: the multi-octave fractal sum. -/
def Simplex2D.get2 (p : Simplex2D) (x y : ℚ) : ℚ :=
  let r := (List.range p.octaves).foldl
    (fun (acc : ℚ × ℚ × ℚ × ℚ) _ =>
      (acc.1 * p.persistence, acc.2.1 * 2,
        acc.2.2.1 + p.raw_noise (x * acc.2.1) (y * acc.2.1) * acc.1,
        acc.2.2.2 + acc.1))
    (1, p.frequency, 0, 0)
  r.2.2.1 / r.2.2.2

end Simplex2Def

section FractalGenerate

/-- Advance the `generate` xorshift stream once and map the new state into
`[-1, 1]` via `(x / u64::MAX) * 2 − 1`. -/
def fractalRng (x : ℕ) : ℕ × ℚ :=
  let x2 := xorshift64 x
  (x2, ((x2 : ℚ) / ((2 ^ 64 - 1 : ℕ) : ℚ)) * 2 - 1)

/-- `map[y][x] = v` (in-bounds in the source). -/
def setCell (m : Grid) (y x : ℕ) (v : ℚ) : Grid :=
  m.set y ((m.getD y []).set x v)

/-- `(lo..hi).step_by(s)`: `lo, lo+s, …` while `< hi`. -/
def stepBy (lo hi s : ℕ) : List ℕ :=
  (List.range ((hi - lo + s - 1) / s)).map (fun k => lo + k * s)

/-- Diamond step for one coarse cell: set the center to the average of the
four corners plus `random() * offset`, threading `(map, rng state)`. -/
def diamondCell (step half : ℕ) (offset : ℚ) (st : Grid × ℕ) (yx : ℕ × ℕ) :
    Grid × ℕ :=
  let avg := (getCell st.1 yx.1 yx.2 + getCell st.1 yx.1 (yx.2 + step) +
    getCell st.1 (yx.1 + step) yx.2 +
    getCell st.1 (yx.1 + step) (yx.2 + step)) * (1/4)
  let r := fractalRng st.2
  (setCell st.1 (yx.1 + half) (yx.2 + half) (avg + r.2 * offset), r.1)

/-- Square step for one midpoint: average the 2–4 in-bounds neighbors at
distance `half` and add `random() * offset`. -/
def squareCell (size half : ℕ) (offset : ℚ) (st : Grid × ℕ) (yx : ℕ × ℕ) :
    Grid × ℕ :=
  let sum := (if half ≤ yx.2 then getCell st.1 yx.1 (yx.2 - half) else 0) +
    (if yx.2 + half < size then getCell st.1 yx.1 (yx.2 + half) else 0) +
    (if half ≤ yx.1 then getCell st.1 (yx.1 - half) yx.2 else 0) +
    (if yx.1 + half < size then getCell st.1 (yx.1 + half) yx.2 else 0)
  let cnt : ℕ := (if half ≤ yx.2 then 1 else 0) + (if yx.2 + half < size then 1 else 0) +
    (if half ≤ yx.1 then 1 else 0) + (if yx.1 + half < size then 1 else 0)
  let avg := sum / (cnt : ℚ)
  let r := fractalRng st.2
  (setCell st.1 yx.1 yx.2 (avg + r.2 * offset), r.1)

/-- The `while step > 1` loop of `Fractal2D::generate`: one diamond sweep,
one square sweep, then halve `step` and decay `offset` by `roughness`. -/
def dsRounds (size : ℕ) (roughness : ℚ) (step : ℕ) (offset : ℚ)
    (st : Grid × ℕ) : Grid × ℕ :=
  if 1 < step then
    let half := step / 2
    let st1 := ((stepBy 0 (size - 1) step).flatMap
      (fun y => (stepBy 0 (size - 1) step).map (fun x => (y, x)))).foldl
      (diamondCell step half offset) st
    let st2 := ((stepBy 0 size half).flatMap
      (fun y => (stepBy (y + half) size step).map (fun x => (y, x)))).foldl
      (squareCell size half offset) st1
    dsRounds size roughness (step / 2) (offset * roughness) st2
  else st
termination_by step
decreasing_by omega

/-- `Fractal2D::generate`: seed the private xorshift stream from
`seed ^ 0xCAFEBABE12345678`, draw the four corners, then run the rounds. -/
def Fractal2D.generateMap (f : Fractal2D) : Grid :=
  let x0 := (f.seed % 2 ^ 64) ^^^ 0xCAFEBABE12345678
  let r1 := fractalRng x0
  let r2 := fractalRng r1.1
  let r3 := fractalRng r2.1
  let r4 := fractalRng r3.1
  let m1 := setCell (zeroGrid f.size f.size) 0 0 r1.2
  let m2 := setCell m1 0 (f.size - 1) r2.2
  let m3 := setCell m2 (f.size - 1) 0 r3.2
  let m4 := setCell m3 (f.size - 1) (f.size - 1) r4.2
  (dsRounds f.size f.roughness (f.size - 1) 1 (m4, r4.1)).1

/-- `generate` returns the fresh map and stores it for later `get2` calls. -/
def Fractal2D.generate (f : Fractal2D) : Grid × Fractal2D :=
  (f.generateMap, { f with map := f.generateMap })

end FractalGenerate

section GeneratorTrait

/-- The `NoiseGenerator` trait objects of the crate: each concrete sampler,
dispatched dynamically.  The default trait methods `panic!` for the
dimension a sampler does not override; a panic is modelled as `none`, a
successful sample as `some`. -/
inductive Generator where
  | perlin2 (p : Perlin2D)
  | perlin3 (p : Perlin3D)
  | simplex2 (s : Simplex2D)
  | fractal2 (f : Fractal2D)

/-- Trait dispatch for `get2`: `Perlin3D` keeps the panicking default. -/
def Generator.get2 : Generator → ℚ → ℚ → Option ℚ
  | .perlin2 p, x, y => some (p.get2 x y)
  | .perlin3 _, _, _ => none
  | .simplex2 s, x, y => some (s.get2 x y)
  | .fractal2 f, x, y => some (f.get2 x y)

/-- Trait dispatch for `get3`: only `Perlin3D` overrides the default. -/
def Generator.get3 : Generator → ℚ → ℚ → ℚ → Option ℚ
  | .perlin3 p, x, y, z => some (p.get3 x y z)
  | .perlin2 _, _, _, _ => none
  | .simplex2 _, _, _, _ => none
  | .fractal2 _, _, _, _ => none

end GeneratorTrait

/-- **C8** — for every sampler instance and every input, requesting the
unsupported dimension (a 3D sample from the 2D-only `Perlin2D`, `Simplex2D`
or `Fractal2D`, a 2D sample from the 3D-only `Perlin3D`) hits the trait's
panicking default, modelled as the distinguishable error value `none` —
never `some` of zero or of any other fallback. -/
theorem C8_unsupported_dimension_errors (p : Perlin2D) (q : Perlin3D)
    (s : Simplex2D) (f : Fractal2D) (x y z : ℚ) :
    Generator.get3 (.perlin2 p) x y z = none ∧
      Generator.get3 (.simplex2 s) x y z = none ∧
      Generator.get3 (.fractal2 f) x y z = none ∧
      Generator.get2 (.perlin3 q) x y = none ∧
      (∀ q2 : ℚ, Generator.get3 (.perlin2 p) x y z ≠ some q2) ∧
      (∀ q2 : ℚ, Generator.get2 (.perlin3 q) x y ≠ some q2) :=
  ⟨rfl, rfl, rfl, rfl, fun _ h => Option.noConfusion h, fun _ h => Option.noConfusion h⟩

/-- **C1** — two-run determinism: any two sampler/generator instances built
with identical parameters are equal as values (construction is a pure
function of the seed and parameters — the permutation tables and xorshift
streams are derived from the seed alone), so sampling or generating with
identical inputs yields identical results. -/
theorem C1_construction_sampling_determinism
    (s fseed size : ℕ) (fr pe rough : ℚ) (oct : ℕ) (x y z : ℚ)
    (p1 p2 : Perlin2D) (q1 q2 : Perlin3D) (t1 t2 : Simplex2D)
    (f1 f2 : Fractal2D)
    (hp1 : p1 = Perlin2D.new s fr pe oct) (hp2 : p2 = Perlin2D.new s fr pe oct)
    (hq1 : q1 = Perlin3D.new s fr pe oct) (hq2 : q2 = Perlin3D.new s fr pe oct)
    (ht1 : t1 = Simplex2D.new s fr pe oct) (ht2 : t2 = Simplex2D.new s fr pe oct)
    (hf1 : Fractal2D.new size fseed rough = some f1)
    (hf2 : Fractal2D.new size fseed rough = some f2) :
    p1.get2 x y = p2.get2 x y ∧
      q1.get3 x y z = q2.get3 x y z ∧
      t1.get2 x y = t2.get2 x y ∧
      f1.generate = f2.generate := by
  subst hp1
  subst hp2
  subst hq1
  subst hq2
  subst ht1
  subst ht2
  have hf : f1 = f2 := by
    rw [hf1] at hf2
    exact Option.some_injective _ hf2
  subst hf
  exact ⟨rfl, rfl, rfl, rfl⟩

/-- Closed witness for C1 at concrete parameters. -/
theorem C1_construction_sampling_determinism_witness :
    Perlin2D.get2 (Perlin2D.new 7 1 1 1) 0 0 =
        Perlin2D.get2 (Perlin2D.new 7 1 1 1) 0 0 ∧
      Perlin3D.get3 (Perlin3D.new 7 1 1 1) 0 0 0 =
        Perlin3D.get3 (Perlin3D.new 7 1 1 1) 0 0 0 ∧
      Simplex2D.get2 (Simplex2D.new 7 1 1 1) 0 0 =
        Simplex2D.get2 (Simplex2D.new 7 1 1 1) 0 0 ∧
      Fractal2D.generate ⟨5, 9, 1, zeroGrid 5 5⟩ =
        Fractal2D.generate ⟨5, 9, 1, zeroGrid 5 5⟩ :=
  C1_construction_sampling_determinism 7 9 5 1 1 1 1 0 0 0
    (Perlin2D.new 7 1 1 1) (Perlin2D.new 7 1 1 1)
    (Perlin3D.new 7 1 1 1) (Perlin3D.new 7 1 1 1)
    (Simplex2D.new 7 1 1 1) (Simplex2D.new 7 1 1 1)
    ⟨5, 9, 1, zeroGrid 5 5⟩ ⟨5, 9, 1, zeroGrid 5 5⟩
    rfl rfl rfl rfl rfl rfl (by rfl) (by rfl)
